import Mathlib

/-!
Verification of the failure-inspection utility of the machine-learning-scripts
repository.

The three notebooks (sklearn-mnist-lc, sklearn-mnist-nn, sklearn-mnist-ul)
each define the same helper, up to the name of the first parameter:

  def show_failures(pred, trueclass=None, predictedclass=None, maxtoshow=10):
      errors = pred!=y_test
      print(...)
      ii = 0
      plt.figure(figsize=(maxtoshow, 1))
      for i in range(X_test.shape[0]):
          if ii>=maxtoshow:
              break
          if errors[i]:
              if trueclass is not None and y_test[i] != trueclass:
                  continue
              if predictedclass is not None and pred[i] != predictedclass:
                  continue
              plt.subplot(1, maxtoshow, ii+1)
              plt.axis(...)
              plt.imshow(X_test[i,:]...)
              plt.title("{} ({})".format(pred[i], y_test[i]))
              ii = ii + 1

`y_test` and `X_test` are the evaluation labels and feature matrix of the
notebook, positionally aligned and of the same length; the loop runs over the
evaluation-set indices.  The embedding below passes the ground-truth labels
`y_test` explicitly, models labels as an arbitrary type with decidable
equality, and returns the list of selected tuples `(i, pred[i], y_test[i])`
in scan order (the source renders each selected sample as an image tile; the
rendered data per tile is exactly this tuple plus the feature row, which is
opaque here).  `maxtoshow` is a Python integer, modelled as `Int`.
-/

namespace MLScripts

/-- Skip test of the first optional filter, from the source line
`if trueclass is not None and y_test[i] != trueclass: continue`:
`true` when the filter is set and the ground-truth label differs from it. -/
def tcSkip {α : Type} [DecidableEq α] (trueclass : Option α) (g : α) : Bool :=
  match trueclass with
  | none => false
  | some t => decide (g ≠ t)

/-- Skip test of the second optional filter, from the source line
`if predictedclass is not None and pred[i] != predictedclass: continue`:
`true` when the filter is set and the predicted label differs from it. -/
def pcSkip {α : Type} [DecidableEq α] (predictedclass : Option α) (p : α) : Bool :=
  match predictedclass with
  | none => false
  | some q => decide (p ≠ q)

/-- The scanning loop of `show_failures`.  `l` holds the
(prediction, ground-truth) pairs still to scan, `i` is the evaluation-set
index of its head, and `ii` is the number of failures collected so far.
Mirrors the source statement by statement: the `break` once
`ii >= maxtoshow`, the misclassification test `errors[i]`, the two
`continue` guards, and the collection (rendering) of `(i, pred[i], y_test[i])`
with `ii = ii + 1`. -/
def show_failuresGo {α : Type} [DecidableEq α] (trueclass predictedclass : Option α)
    (maxtoshow : Int) : List (α × α) → Nat → Nat → List (Nat × α × α)
  | [], _, _ => []
  | (p, g) :: rest, i, ii =>
    if maxtoshow ≤ (ii : Int) then []
    else if p ≠ g then
      if tcSkip trueclass g then
        show_failuresGo trueclass predictedclass maxtoshow rest (i + 1) ii
      else if pcSkip predictedclass p then
        show_failuresGo trueclass predictedclass maxtoshow rest (i + 1) ii
      else (i, p, g) :: show_failuresGo trueclass predictedclass maxtoshow rest (i + 1) (ii + 1)
    else show_failuresGo trueclass predictedclass maxtoshow rest (i + 1) ii

/-- `show_failures` from the notebooks, with the ground-truth labels `y_test`
passed explicitly instead of read from the notebook global of the same name.
Scans the positionally aligned pairs `pred.zip y_test` from index 0 and
returns the selected `(index, predicted, groundTruth)` tuples in scan order. -/
def show_failures {α : Type} [DecidableEq α] (pred y_test : List α)
    (trueclass predictedclass : Option α) (maxtoshow : Int) : List (Nat × α × α) :=
  show_failuresGo trueclass predictedclass maxtoshow (pred.zip y_test) 0 0

/-- A scan position `(i, p, g)` is selected when the sample is misclassified
and neither optional filter skips it. -/
def passes {α : Type} [DecidableEq α] (trueclass predictedclass : Option α)
    (x : Nat × α × α) : Bool :=
  decide (x.2.1 ≠ x.2.2) && !tcSkip trueclass x.2.2 && !pcSkip predictedclass x.2.1

/-- Reference computation written from the spec for the refinement claim:
filter the full enumerated input for failures (prediction differs from
ground truth) that satisfy both optional filters, then take the first
`maxtoshow` entries. -/
def findFailuresRef {α : Type} [DecidableEq α] (pred y_test : List α)
    (trueclass predictedclass : Option α) (maxtoshow : Int) : List (Nat × α × α) :=
  ((((pred.zip y_test).enum).filter fun x =>
      decide (x.2.1 ≠ x.2.2) &&
      (match trueclass with | none => true | some e => decide (x.2.2 = e)) &&
      (match predictedclass with | none => true | some q => decide (x.2.1 = q)))).take
    maxtoshow.toNat

theorem show_failuresGo_eq_take_filter {α : Type} [DecidableEq α]
    (trueclass predictedclass : Option α) (maxtoshow : Int) :
    ∀ (l : List (α × α)) (i ii : Nat),
      show_failuresGo trueclass predictedclass maxtoshow l i ii =
        ((l.enumFrom i).filter (passes trueclass predictedclass)).take
          (maxtoshow - ii).toNat := by
  intro l
  induction l with
  | nil => intro i ii; simp [show_failuresGo]
  | cons hd rest ih =>
    intro i ii
    obtain ⟨p, g⟩ := hd
    by_cases hcap : maxtoshow ≤ (ii : Int)
    · have h0 : (maxtoshow - ii).toNat = 0 := by omega
      simp [show_failuresGo, hcap, h0]
    · have hpos : (maxtoshow - ii).toNat = (maxtoshow - (ii + 1 : Nat)).toNat + 1 := by
        push_cast
        omega
      by_cases hpg : p = g
      · subst hpg
        have hpass : passes trueclass predictedclass (i, p, p) = false := by
          simp [passes]
        simp [show_failuresGo, hcap, List.enumFrom, List.filter_cons, hpass, ih]
      · cases htc : tcSkip trueclass g with
        | true =>
          have hpass : passes trueclass predictedclass (i, p, g) = false := by
            simp [passes, htc]
          simp [show_failuresGo, hcap, hpg, htc, List.enumFrom, List.filter_cons, hpass, ih]
        | false =>
          cases hpc : pcSkip predictedclass p with
          | true =>
            have hpass : passes trueclass predictedclass (i, p, g) = false := by
              simp [passes, hpc]
            simp [show_failuresGo, hcap, hpg, htc, hpc, List.enumFrom, List.filter_cons,
              hpass, ih]
          | false =>
            have hpass : passes trueclass predictedclass (i, p, g) = true := by
              simp [passes, hpg, htc, hpc]
            simp [show_failuresGo, hcap, hpg, htc, hpc, List.enumFrom, List.filter_cons,
              hpass, ih, hpos]

theorem show_failures_eq_take_filter {α : Type} [DecidableEq α] (pred y_test : List α)
    (trueclass predictedclass : Option α) (maxtoshow : Int) :
    show_failures pred y_test trueclass predictedclass maxtoshow =
      (((pred.zip y_test).enum).filter (passes trueclass predictedclass)).take
        maxtoshow.toNat := by
  have h := show_failuresGo_eq_take_filter trueclass predictedclass maxtoshow
    (pred.zip y_test) 0 0
  simpa [show_failures, List.enum] using h

theorem mem_filter_enum_of_mem_show_failures {α : Type} [DecidableEq α]
    {pred y_test : List α} {trueclass predictedclass : Option α} {maxtoshow : Int}
    {x : Nat × α × α}
    (hx : x ∈ show_failures pred y_test trueclass predictedclass maxtoshow) :
    x ∈ (pred.zip y_test).enum ∧ passes trueclass predictedclass x = true := by
  rw [show_failures_eq_take_filter] at hx
  have hf := List.mem_of_mem_take hx
  exact ⟨List.mem_of_mem_filter hf, List.of_mem_filter hf⟩

theorem zip_get?_eq_some {α : Type} :
    ∀ (l₁ l₂ : List α) (i : Nat) (p g : α),
      (l₁.zip l₂).get? i = some (p, g) → l₁.get? i = some p ∧ l₂.get? i = some g := by
  intro l₁
  induction l₁ with
  | nil => intro l₂ i p g h; simp [List.zip] at h
  | cons a t ih =>
    intro l₂ i p g h
    cases l₂ with
    | nil => simp [List.zip] at h
    | cons b t₂ =>
      cases i with
      | zero =>
        simp [List.zip_cons_cons] at h
        simp [h]
      | succ j =>
        simp only [List.zip_cons_cons, List.get?] at h ⊢
        exact ih t₂ j p g h

theorem fst_le_of_mem_enumFrom {β : Type} {x : Nat × β} :
    ∀ {l : List β} {n : Nat}, x ∈ l.enumFrom n → n ≤ x.1 := by
  intro l
  induction l with
  | nil => intro n h; simp [List.enumFrom] at h
  | cons a t ih =>
    intro n h
    simp only [List.enumFrom, List.mem_cons] at h
    rcases h with h | h
    · simp [h]
    · exact Nat.le_of_succ_le (ih h)

theorem pairwise_fst_lt_enumFrom {β : Type} :
    ∀ (l : List β) (n : Nat),
      (l.enumFrom n).Pairwise (fun a b => a.1 < b.1) := by
  intro l
  induction l with
  | nil => intro n; simp [List.enumFrom]
  | cons a t ih =>
    intro n
    simp only [List.enumFrom]
    refine List.Pairwise.cons ?_ (ih (n + 1))
    intro x hx
    exact Nat.lt_of_lt_of_le (Nat.lt_succ_self n) (fst_le_of_mem_enumFrom hx)

theorem length_filter_snd_enumFrom {β : Type} (p : β → Bool) :
    ∀ (l : List β) (n : Nat),
      ((l.enumFrom n).filter fun x => p x.2).length = (l.filter p).length := by
  intro l
  induction l with
  | nil => intro n; simp [List.enumFrom]
  | cons a t ih =>
    intro n
    cases hp : p a with
    | true => simp [List.enumFrom, List.filter_cons, hp, ih]
    | false => simp [List.enumFrom, List.filter_cons, hp, ih]

theorem zip_self_eq_map {α : Type} :
    ∀ (l : List α), l.zip l = l.map fun a => (a, a) := by
  intro l
  induction l with
  | nil => rfl
  | cons a t ih => simp [List.zip_cons_cons, ih]

theorem snd_mem_of_mem_enumFrom {β : Type} {x : Nat × β} :
    ∀ {l : List β} {n : Nat}, x ∈ l.enumFrom n → x.2 ∈ l := by
  intro l
  induction l with
  | nil => intro n h; simp [List.enumFrom] at h
  | cons a t ih =>
    intro n h
    simp only [List.enumFrom, List.mem_cons] at h
    rcases h with h | h
    · simp [h]
    · exact List.mem_cons_of_mem a (ih h)

theorem passes_eq_spec {α : Type} [DecidableEq α] (trueclass predictedclass : Option α)
    (x : Nat × α × α) :
    passes trueclass predictedclass x =
      (decide (x.2.1 ≠ x.2.2) &&
       (match trueclass with | none => true | some e => decide (x.2.2 = e)) &&
       (match predictedclass with | none => true | some q => decide (x.2.1 = q))) := by
  cases trueclass <;> cases predictedclass <;>
    simp [passes, tcSkip, pcSkip, decide_not]

/-- C1: for equal-length ground-truth and prediction sequences and a positive
cap, every tuple `(i, p, g)` returned by `show_failures` is a genuine failure
read off at its own index: `p ≠ g`, `pred.get? i = some p` and
`y_test.get? i = some g`. -/
theorem show_failures_sound {α : Type} [DecidableEq α] (pred y_test : List α)
    (trueclass predictedclass : Option α) (maxtoshow : Int)
    (hlen : pred.length = y_test.length) (hpos : 0 < maxtoshow) (i : Nat) (p g : α)
    (hmem : (i, p, g) ∈ show_failures pred y_test trueclass predictedclass maxtoshow) :
    p ≠ g ∧ pred.get? i = some p ∧ y_test.get? i = some g := by
  obtain ⟨henum, hpass⟩ := mem_filter_enum_of_mem_show_failures hmem
  have hzip : (pred.zip y_test).get? i = some (p, g) := by
    have h := List.mem_enum_iff_getElem?.mp henum
    simpa [List.get?_eq_getElem?] using h
  have hget := zip_get?_eq_some pred y_test i p g hzip
  have hne : p ≠ g := by
    simp [passes] at hpass
    exact hpass.1.1
  exact ⟨hne, hget.1, hget.2⟩

/-- C1 witness: on G = [0,1,1,2,0], P = [0,2,1,2,1], maxResults = 10, the
returned tuple (1, 2, 1) is a failure read off at index 1. -/
theorem show_failures_sound_witness :
    (2 : ℕ) ≠ 1 ∧ ([0, 2, 1, 2, 1] : List ℕ).get? 1 = some 2 ∧
      ([0, 1, 1, 2, 0] : List ℕ).get? 1 = some 1 :=
  show_failures_sound [0, 2, 1, 2, 1] [0, 1, 1, 2, 0] none none 10 rfl (by decide)
    1 2 1 (by decide)

/-- C2: when the `trueclass` filter is set every returned element's ground
truth equals it, and when the `predictedclass` filter is set every returned
element's prediction equals it. -/
theorem show_failures_filters {α : Type} [DecidableEq α] (pred y_test : List α)
    (trueclass predictedclass : Option α) (maxtoshow : Int) :
    (∀ e, trueclass = some e →
      ∀ x ∈ show_failures pred y_test trueclass predictedclass maxtoshow, x.2.2 = e) ∧
    (∀ q, predictedclass = some q →
      ∀ x ∈ show_failures pred y_test trueclass predictedclass maxtoshow, x.2.1 = q) := by
  constructor
  · intro e he x hx
    have hpass := (mem_filter_enum_of_mem_show_failures hx).2
    subst he
    simp [passes, tcSkip] at hpass
    exact hpass.1.2
  · intro q hq x hx
    have hpass := (mem_filter_enum_of_mem_show_failures hx).2
    subst hq
    simp [passes, pcSkip] at hpass
    exact hpass.2

/-- C2 witness: on G = [0,1,1,2,0], P = [0,2,1,2,1], trueclass = 1, the
returned tuple (1, 2, 1) has ground truth 1. -/
theorem show_failures_filters_witness :
    ((1, 2, 1) : ℕ × ℕ × ℕ).2.2 = 1 :=
  (show_failures_filters [0, 2, 1, 2, 1] [0, 1, 1, 2, 0] (some 1) none 10).1
    1 rfl (1, 2, 1) (by decide)

/-- C3: the result never holds more than `maxtoshow` entries and its indices
are strictly increasing (scan order). -/
theorem show_failures_bounded_increasing {α : Type} [DecidableEq α] (pred y_test : List α)
    (trueclass predictedclass : Option α) (maxtoshow : Int) :
    (show_failures pred y_test trueclass predictedclass maxtoshow).length ≤ maxtoshow.toNat ∧
    (show_failures pred y_test trueclass predictedclass maxtoshow).Pairwise
      (fun a b => a.1 < b.1) := by
  rw [show_failures_eq_take_filter]
  constructor
  · exact List.length_take_le _ _
  · have h1 : ((pred.zip y_test).enum).Pairwise
        (fun a b : Nat × α × α => a.1 < b.1) := by
      simpa [List.enum] using pairwise_fst_lt_enumFrom (pred.zip y_test) 0
    exact List.Pairwise.sublist (List.take_sublist _ _)
      (h1.filter (passes trueclass predictedclass))


/-- C4: the early-exit scan of `show_failures` returns exactly the sequence
obtained by filtering the full enumerated input for failures satisfying both
optional filters and taking the first `maxtoshow` entries; in particular when
the cap is never reached the two computations cover the same full input. -/
theorem show_failures_refines_ref {α : Type} [DecidableEq α] (pred y_test : List α)
    (trueclass predictedclass : Option α) (maxtoshow : Int) :
    show_failures pred y_test trueclass predictedclass maxtoshow =
      findFailuresRef pred y_test trueclass predictedclass maxtoshow := by
  have hfun : passes trueclass predictedclass =
      fun x : Nat × α × α =>
        (decide (x.2.1 ≠ x.2.2) &&
         (match trueclass with | none => true | some e => decide (x.2.2 = e)) &&
         (match predictedclass with | none => true | some q => decide (x.2.1 = q))) :=
    funext (passes_eq_spec trueclass predictedclass)
  rw [show_failures_eq_take_filter, findFailuresRef, hfun]

/-- C6 counterexample: with maxtoshow = 0 and a misclassified sample present,
the source raises nothing (it has no validation or error path at all): the
scanning loop breaks on its first test and the call completes normally with
the empty gallery as its result. -/
theorem show_failures_zero_cap_returns_result :
    show_failures ([0] : List ℕ) [1] none none 0 = [] := by decide

/-- C6 amended: for every cap `maxtoshow ≤ 0` the scan stops immediately and
`show_failures` returns the empty sequence; no error is raised. -/
theorem show_failures_nonpos_cap_empty {α : Type} [DecidableEq α] (pred y_test : List α)
    (trueclass predictedclass : Option α) (maxtoshow : Int) (hm : maxtoshow ≤ 0) :
    show_failures pred y_test trueclass predictedclass maxtoshow = [] := by
  rw [show_failures_eq_take_filter]
  have h0 : maxtoshow.toNat = 0 := by omega
  simp [h0]

/-- C6 amended witness: a negative cap also yields the empty sequence. -/
theorem show_failures_nonpos_cap_empty_witness :
    show_failures ([0] : List ℕ) [1] none none (-3) = [] :=
  show_failures_nonpos_cap_empty [0] [1] none none (-3) (by decide)

/-- C7: when no scan position passes (no sample is misclassified, or no
misclassified sample satisfies both filters) the call succeeds with the empty
sequence; in particular when predictions equal ground truth element-wise the
result is empty. -/
theorem show_failures_empty_when_no_match {α : Type} [DecidableEq α] (pred y_test : List α)
    (trueclass predictedclass : Option α) (maxtoshow : Int) :
    ((∀ x ∈ (pred.zip y_test).enum, passes trueclass predictedclass x = false) →
      show_failures pred y_test trueclass predictedclass maxtoshow = []) ∧
    (pred = y_test →
      show_failures pred y_test trueclass predictedclass maxtoshow = []) := by
  constructor
  · intro h
    rw [show_failures_eq_take_filter]
    have hnil : List.filter (passes trueclass predictedclass) (pred.zip y_test).enum = [] := by
      apply List.filter_eq_nil_iff.mpr
      intro x hx
      simp [h x hx]
    simp [hnil]
  · intro h
    subst h
    rw [show_failures_eq_take_filter]
    have hnil : List.filter (passes trueclass predictedclass) (pred.zip pred).enum = [] := by
      apply List.filter_eq_nil_iff.mpr
      intro x hx
      have hx2 : x.2 ∈ pred.zip pred := by
        apply snd_mem_of_mem_enumFrom (n := 0)
        simpa [List.enum] using hx
      rw [zip_self_eq_map] at hx2
      obtain ⟨a, _, ha⟩ := List.mem_map.mp hx2
      simp [passes, ← ha]
    simp [hnil]

/-- C7 witness: identical ground truth and predictions yield the empty
sequence. -/
theorem show_failures_empty_when_no_match_witness :
    show_failures ([5, 7] : List ℕ) [5, 7] none none 10 = [] :=
  (show_failures_empty_when_no_match [5, 7] [5, 7] none none 10).2 rfl

/-- C8: `show_failures` is deterministic in its inputs: two calls with equal
ground truth, predictions, filters and cap return equal output (the embedded
selection has no state; the source's rendering of the selected tiles is an
external display effect carrying exactly the returned tuples). -/
theorem show_failures_deterministic {α : Type} [DecidableEq α]
    (pred₁ pred₂ y₁ y₂ : List α) (tc₁ tc₂ pc₁ pc₂ : Option α) (m₁ m₂ : Int)
    (hp : pred₁ = pred₂) (hy : y₁ = y₂) (htc : tc₁ = tc₂) (hpc : pc₁ = pc₂)
    (hm : m₁ = m₂) :
    show_failures pred₁ y₁ tc₁ pc₁ m₁ = show_failures pred₂ y₂ tc₂ pc₂ m₂ := by
  subst hp; subst hy; subst htc; subst hpc; subst hm; rfl

/-- C8 witness: two calls on the same concrete input agree. -/
theorem show_failures_deterministic_witness :
    show_failures ([0, 2] : List ℕ) [0, 1] (some 1) none 10 =
      show_failures ([0, 2] : List ℕ) [0, 1] (some 1) none 10 :=
  show_failures_deterministic [0, 2] [0, 2] [0, 1] [0, 1] (some 1) (some 1)
    none none 10 10 rfl rfl rfl rfl rfl

/-- C9: on G = [1,1,1], P = [0,0,0] with cap 2 the result is exactly
[(0,0,1), (1,0,1)]; the third failure at index 2 is excluded by the cap. -/
theorem show_failures_cap_example :
    show_failures ([0, 0, 0] : List ℕ) [1, 1, 1] none none 2 =
      [(0, 0, 1), (1, 0, 1)] := by decide

/-- C10: with both filters unset, equal-length inputs and a positive cap, the
result length is exactly the minimum of the cap and the total number of
misclassified positions. -/
theorem show_failures_length_eq_min {α : Type} [DecidableEq α] (pred y_test : List α)
    (maxtoshow : Int) (hlen : pred.length = y_test.length) (hm : 0 < maxtoshow) :
    (show_failures pred y_test none none maxtoshow).length =
      min maxtoshow.toNat
        (((pred.zip y_test).filter fun x => decide (x.1 ≠ x.2)).length) := by
  rw [show_failures_eq_take_filter, List.length_take]
  congr 1
  have h1 : passes (none : Option α) none =
      fun x : Nat × α × α => decide (x.2.1 ≠ x.2.2) := by
    funext x
    simp [passes, tcSkip, pcSkip]
  rw [h1]
  simpa [List.enum] using
    length_filter_snd_enumFrom (fun pr : α × α => decide (pr.1 ≠ pr.2))
      (pred.zip y_test) 0

/-- C10 witness: on G = [0,1,1,2,0], P = [0,2,1,2,1] with cap 10 there are two
failures and the result length is min 10 2 = 2. -/
theorem show_failures_length_eq_min_witness :
    (show_failures ([0, 2, 1, 2, 1] : List ℕ) [0, 1, 1, 2, 0] none none 10).length =
      min (Int.toNat 10)
        ((([0, 2, 1, 2, 1] : List ℕ).zip [0, 1, 1, 2, 0]).filter
          fun x => decide (x.1 ≠ x.2)).length :=
  show_failures_length_eq_min [0, 2, 1, 2, 1] [0, 1, 1, 2, 0] 10 rfl (by decide)

end MLScripts
